import Mathlib

/-!
# Verification of the home.lab event store (`miniapps/event-store/src/store.py`)

Shallow embedding of the append-only, hash-chained event store.  Events,
segment files and the in-memory state of the store are embedded as Lean structures;
the store operations (`append`, `verify_chain`, `query`, `initialize`,
`get_status`, `cleanup_old_events`, `_compress_file`) are translated function
by function from the Python source.

Modelling conventions:
* SHA-256 is kept as a parameter `H : EventBody → String`; `compute_hash`
  serializes every field except `hash` with a canonical key-sorted dump, and
  that dump is injective in the field values, so the parameter consumes the
  record of all non-hash fields directly.
* A file line is either a parseable event record (`Line.good`), a
  whitespace-only line (`Line.blank`), or an unparseable line (`Line.bad`),
  mirroring the three cases the readers distinguish.
* Directory listings (`sorted(glob("events_*.jsonl*"))`) are modelled as lists
  of `SegFile` in filename order; segment names are UTC timestamps, so
  lexical filename order equals creation order and newly created segments are
  appended at the end of the listing.
* File sizes (only compared against the rotation threshold) are supplied by a
  size parameter; the byte threshold stands for `MAX_FILE_SIZE_MB * 1024**2`.
-/

/-- The 64-zero genesis hash (`GENESIS_HASH = "0" * 64`). -/
def GENESIS_HASH : String :=
  "0000000000000000000000000000000000000000000000000000000000000000"

/-- All fields of an event except `hash`: exactly what
`Event.compute_hash` serializes (`model_dump(exclude={"hash"})`). -/
structure EventBody where
  id : String
  timestamp : String
  category : String
  action : String
  actor : String
  target : Option String
  data : List (String × String)
  result : String
  error : Option String
  previous_hash : String
deriving DecidableEq, Repr

/-- An event record as persisted on disk (all Pydantic fields of `Event`).
The `category` enum is embedded as its JSON string value. -/
structure Event where
  id : String
  timestamp : String
  category : String
  action : String
  actor : String
  target : Option String
  data : List (String × String)
  result : String
  error : Option String
  previous_hash : String
  hash : String
deriving DecidableEq, Repr

/-- The non-`hash` part of an event, as fed to the hash function. -/
def Event.body (e : Event) : EventBody :=
  ⟨e.id, e.timestamp, e.category, e.action, e.actor, e.target, e.data,
   e.result, e.error, e.previous_hash⟩

/-- Model of `Event.compute_hash`: hash of the canonical serialization of all fields
except `hash`.  `H` stands for SHA-256 composed with the canonical JSON dump
of the (injectively represented) field record. -/
def computeHash (H : EventBody → String) (e : Event) : String := H e.body

/-- Model of `Event.with_hash`: copy of the event with `hash` set to its computed hash. -/
def withHash (H : EventBody → String) (e : Event) : Event :=
  { e with hash := computeHash H e }

/-- One line of a segment file: a parseable event record, a whitespace-only
line, or a line that `Event.model_validate_json` / `json.loads` rejects. -/
inductive Line where
  | blank : Line
  | bad (raw : String) : Line
  | good (e : Event) : Line
deriving DecidableEq, Repr

/-- Is the line a parseable event record? -/
def Line.isGood : Line → Bool
  | .good _ => true
  | _ => false

/-- Is the line whitespace-only? -/
def Line.isBlank : Line → Bool
  | .blank => true
  | _ => false

/-- Is the line unparseable? -/
def Line.isBad : Line → Bool
  | .bad _ => true
  | _ => false

/-- A segment file `events_<name>.jsonl` (`gz := false`) or
`events_<name>.jsonl.gz` (`gz := true`) with its decoded lines. -/
structure SegFile where
  name : String
  gz : Bool
  lines : List Line
deriving DecidableEq, Repr

/-- The in-memory store state: rotated-out segments (in listing order), the
path of `current_file` (set by `_create_new_file`, a file that exists on disk
only once something has been written to it, hence the `Option` on the lines),
and the chain state `last_hash` / `event_count`. -/
structure StoreState where
  closed : List SegFile
  activeName : Option String
  activeLines : Option (List Line)
  lastHash : String
  eventCount : Nat
deriving DecidableEq, Repr

/-- The directory listing `sorted(data_dir.glob("events_*.jsonl*"))`: the
rotated-out segments followed by the active segment when it exists on disk
(segment names are creation timestamps, so the newest-named active file
lists last). -/
def StoreState.dir (s : StoreState) : List SegFile :=
  s.closed ++ (match s.activeName, s.activeLines with
    | some n, some ls => [⟨n, false, ls⟩]
    | _, _ => [])

/-- The events of a list of lines, ignoring blank and unparseable ones. -/
def eventsOfLines (l : List Line) : List Event :=
  l.filterMap (fun ln => match ln with
    | .good e => some e
    | _ => none)

/-- All lines of a directory listing, in on-disk order. -/
def allLinesOf (dir : List SegFile) : List Line :=
  (dir.map SegFile.lines).flatten

/-- All parseable events of a directory listing, in on-disk order. -/
def allEventsOf (dir : List SegFile) : List Event :=
  eventsOfLines (allLinesOf dir)

/-- Model of `EventStore._read_file_forward`: yield the events of a file in forward
order.  Blank lines are skipped (`if line:`); the first unparseable line
raises inside the generator, the exception is caught and logged, and the
generator simply stops — the rest of the file is never yielded. -/
def readFileForward : List Line → List Event
  | [] => []
  | .blank :: rest => readFileForward rest
  | .bad _ :: _ => []
  | .good e :: rest => e :: readFileForward rest

/-- Model of `EventStore._read_file`: yield the events of a file in reverse line
order, with the same blank-skipping and stop-at-first-unparseable-line
behaviour (the exception is raised mid-iteration and caught outside). -/
def readFileReversed (l : List Line) : List Event :=
  readFileForward l.reverse

/-- Outcome of scanning a span of the chain: the running hash after a fully
valid span, or the error description of the first failure. -/
inductive VerifyResult where
  | ok (h : String)
  | fail (msg : String)
deriving DecidableEq, Repr

/-- The chain-break message built by `verify_chain`. -/
def chainBrokenMsg (e : Event) (prev : String) : String :=
  "Chain broken at event " ++ e.id ++ ": expected " ++ prev.take 16 ++
    ", got " ++ e.previous_hash.take 16

/-- The hash-mismatch message built by `verify_chain`. -/
def hashMismatchMsg (H : EventBody → String) (e : Event) : String :=
  "Hash mismatch at event " ++ e.id ++ ": expected " ++
    (computeHash H e).take 16 ++ ", got " ++ e.hash.take 16

/-- The per-event loop body of `EventStore.verify_chain` over a span of
events: check the `previous_hash` link, then the recomputed hash, then
advance the running hash. -/
def verifyEvents (H : EventBody → String) (prev : String) :
    List Event → VerifyResult
  | [] => .ok prev
  | e :: rest =>
    if e.previous_hash ≠ prev then .fail (chainBrokenMsg e prev)
    else if e.hash ≠ computeHash H e then .fail (hashMismatchMsg H e)
    else verifyEvents H e.hash rest

/-- The scan of `verify_chain` over all segment files in listing
(chronological) order, threading the running hash and failing fast. -/
def runChain (H : EventBody → String) (prev : String) :
    List SegFile → VerifyResult
  | [] => .ok prev
  | f :: rest =>
    match verifyEvents H prev (readFileForward f.lines) with
    | .fail m => .fail m
    | .ok h => runChain H h rest

/-- Model of `EventStore.verify_chain`: `(True, None)` on a fully valid chain,
`(False, description)` at the first failure.  The scan starts from the
genesis hash and never mutates store state. -/
def verifyChain (H : EventBody → String) (dir : List SegFile) :
    Bool × Option String :=
  match runChain H GENESIS_HASH dir with
  | .ok _ => (true, none)
  | .fail m => (false, some m)

/-- Index of the first event of a span that fails its `verify_chain` check
(link or self-hash), counting from `k`; `none` when the whole span passes.
This is the positional reading of where `verify_chain` stops. -/
def firstBadIdx (H : EventBody → String) (prev : String) (k : Nat) :
    List Event → Option Nat
  | [] => none
  | e :: rest =>
    if e.previous_hash = prev ∧ e.hash = computeHash H e then
      firstBadIdx H e.hash (k + 1) rest
    else some k

/-- Position (in the concatenated on-disk event sequence) of the first event
at which verification fails, starting from genesis. -/
def firstFailAt (H : EventBody → String) (dir : List SegFile) : Option Nat :=
  firstBadIdx H GENESIS_HASH 0 (allEventsOf dir)

/-- The byte size of the active file, `current_file.stat().st_size`, as the
sum of the on-disk sizes of its lines (`lineSize` abstracts the serialized length
of one line, newline included). -/
def fileBytes (lineSize : Line → Nat) (ls : List Line) : Nat :=
  (ls.map lineSize).sum

/-- Model of `EventStore._rotate_file` as triggered inside `append`: when
`current_file` exists on disk and its size has reached the threshold
(`maxBytes` stands for `MAX_FILE_SIZE_MB * 1024 * 1024`), the active file
joins the closed listing and `_create_new_file` points `current_file` at a
fresh path named by the current UTC timestamp (`now`); the just-closed file
is scheduled for background compression and is still on disk as written. -/
def rotateIfNeeded (lineSize : Line → Nat) (maxBytes : Nat) (now : String)
    (s : StoreState) : StoreState :=
  match s.activeName, s.activeLines with
  | some n, some ls =>
    if maxBytes ≤ fileBytes lineSize ls then
      { s with closed := s.closed ++ [⟨n, false, ls⟩],
               activeName := some now, activeLines := none }
    else s
  | _, _ => s

/-- Model of the line `if not self.current_file: self._create_new_file()` inside `append`. -/
def ensureActive (now : String) (s : StoreState) : StoreState :=
  match s.activeName with
  | none => { s with activeName := some now }
  | some _ => s

/-- Model of `EventStore.append` with the outcome of the file write made explicit:
rotation check, `_create_new_file` fallback, chain linking
(`event.previous_hash = self.last_hash`, then `with_hash`), the append of
one serialized line (opening the file in append mode creates it), and only
then the in-memory update of `last_hash` / `event_count`.  `writeFails`
models the write raising an I/O error; the exception propagates (there is no
handler in `append`) and the state updates after the write never run. -/
def appendEvent (H : EventBody → String) (lineSize : Line → Nat)
    (maxBytes : Nat) (now : String) (writeFails : Bool)
    (s : StoreState) (e : Event) : StoreState × Except String Event :=
  let s1 := ensureActive now (rotateIfNeeded lineSize maxBytes now s)
  let e1 : Event := { e with previous_hash := s1.lastHash }
  let e2 := withHash H e1
  if writeFails then (s1, .error "I/O error during file write")
  else
    ({ s1 with activeLines := some ((s1.activeLines.getD []) ++ [.good e2]),
               lastHash := e2.hash,
               eventCount := s1.eventCount + 1 }, .ok e2)

/-- A sequence of successful `append` calls; each element carries the UTC
timestamp `_create_new_file` would use at that call together with the
caller-supplied event. -/
def appendAll (H : EventBody → String) (lineSize : Line → Nat)
    (maxBytes : Nat) : StoreState → List (String × Event) → StoreState
  | s, [] => s
  | s, (now, e) :: rest =>
    appendAll H lineSize maxBytes (appendEvent H lineSize maxBytes now false s e).1 rest

/-- Scan the lines of a file from the last towards the first (the
`for line in reversed(lines)` loop of `initialize`), skipping blank lines
and lines that `json.loads` rejects, and return the `hash` field of the
first parseable record found. -/
def lastGoodHash (l : List Line) : Option String :=
  (readBack l.reverse) where
  /-- Walk the already-reversed line list. -/
  readBack : List Line → Option String
  | [] => none
  | .blank :: rest => readBack rest
  | .bad _ :: rest => readBack rest
  | .good e :: _ => some e.hash

/-- Model of `EventStore.initialize`: glob `events_*.jsonl` — plain segments only, a
`.gz` never matches — take the lexically last as `current_file`, and read its
last parseable line to recover `last_hash`, setting `event_count` to that
raw line count of that file; with no parseable line (or no plain segment at all)
the state stays at genesis, and with no plain segment `_create_new_file`
points `current_file` at a fresh path that is not yet on disk. -/
def initStore (rawDir : List SegFile) (now : String) : StoreState :=
  match (rawDir.filter (fun f => !f.gz)).getLast? with
  | none =>
    { closed := rawDir, activeName := some now, activeLines := none,
      lastHash := GENESIS_HASH, eventCount := 0 }
  | some f =>
    let rest := dropLastPlain rawDir
    match lastGoodHash f.lines with
    | some h =>
      { closed := rest, activeName := some f.name, activeLines := some f.lines,
        lastHash := h, eventCount := f.lines.length }
    | none =>
      { closed := rest, activeName := some f.name, activeLines := some f.lines,
        lastHash := GENESIS_HASH, eventCount := 0 }
where
  /-- The listing without the last plain segment (which becomes the active
  file slot of the state). -/
  dropLastPlain : List SegFile → List SegFile
  | [] => []
  | f :: rest =>
    if (rest.filter (fun g => !g.gz)).isEmpty && !f.gz then rest
    else f :: dropLastPlain rest

/-- Lexicographic comparison of strings by code points, character by
character — the Python string `<` used on date strings and ISO timestamps.
(Equivalent to the library order on `String`, spelled out so that it
evaluates by reduction.) -/
def strLt (a b : String) : Bool :=
  go a.data b.data where
  /-- Walk the two character lists in lockstep. -/
  go : List Char → List Char → Bool
  | [], [] => false
  | [], _ :: _ => true
  | _ :: _, [] => false
  | x :: xs, y :: ys => if x < y then true else if y < x then false else go xs ys

/-- The stem of the file as `pathlib.Path.stem` computes it: the file name
with its final suffix removed (`events_<name>.jsonl` ↦ `events_<name>`,
`events_<name>.jsonl.gz` ↦ `events_<name>.jsonl`). -/
def SegFile.stemStr (f : SegFile) : String :=
  "events_" ++ f.name ++ (if f.gz then ".jsonl" else "")

/-- Split a character list at every occurrence of a separator character —
Python `str.split("_")` for the one-character separator used here.
(Spelled out structurally so that it evaluates by reduction.) -/
def splitChar (sep : Char) : List Char → List (List Char)
  | [] => [[]]
  | c :: rest =>
    let r := splitChar sep rest
    if c = sep then [] :: r
    else (c :: r.headD []) :: r.tail

/-- Model of `file_path.stem.split("_")[1][:8]`: the date part the retention scan
extracts from the file name of a segment. -/
def SegFile.datePart (f : SegFile) : String :=
  String.mk (((splitChar (Char.ofNat 95) f.stemStr.data).getD 1 []).take 8)

/-- Model of `EventStore.cleanup_old_events`: iterate over every globbed segment file
and unlink those whose name-encoded date is lexically before the cutoff
string (`(now - RETENTION_DAYS).strftime("%Y%m%d")`, passed in as
`cutoffStr`).  `current_file` is not consulted: when the date of the active file
qualifies, its on-disk content is unlinked like any other file while the
in-memory path, `last_hash` and `event_count` stay as they were. -/
def cleanupOldEvents (cutoffStr : String) (s : StoreState) : StoreState :=
  { s with
    closed := s.closed.filter (fun f => !strLt f.datePart cutoffStr),
    activeLines :=
      match s.activeName, s.activeLines with
      | some n, some ls =>
        if strLt (SegFile.datePart ⟨n, false, ls⟩) cutoffStr then none else some ls
      | _, al => al }

/-- The two on-disk paths `_compress_file` touches: the plain segment and its
`<name>.gz` sibling; `none` means the path does not exist. -/
structure TwoFiles where
  plain : Option String
  gzf : Option String
deriving DecidableEq, Repr

/-- Model of `EventStore._compress_file` with I/O failures made explicit.  The steps
are: 0 — read the plain file; 1 — open the `.gz` for writing (which creates
it); 2 — write the compressed bytes; 3 — unlink the original.  `failStep =
some i` makes step `i` raise; the `except` block catches, logs and returns,
so the state reached so far persists.  A failing write leaves whatever
prefix of the compressed bytes reached the disk (`partialLen` of them).
`gzc` abstracts `gzip.compress`. -/
def compressFile (gzc : String → String) (failStep : Option Nat)
    (partialLen : Nat) (fs : TwoFiles) : TwoFiles :=
  match fs.plain with
  | none => fs
  | some content =>
    if failStep = some 0 then fs
    else if failStep = some 1 then fs
    else
      let compressed := gzc content
      if failStep = some 2 then
        { fs with gzf := some (String.mk (compressed.data.take partialLen)) }
      else if failStep = some 3 then { fs with gzf := some compressed }
      else { plain := none, gzf := some compressed }

/-- Does `needle` occur as a contiguous substring of `hay`?  This is the
Python `needle in hay` test used by the `action` filter. -/
def strContains (hay needle : String) : Bool :=
  go needle.data hay.data where
  /-- Walk the haystack characters, testing a prefix match at each start. -/
  go (p : List Char) : List Char → Bool
  | [] => p.isEmpty
  | c :: t => p.isPrefixOf (c :: t) || go p t

/-- The `EventQuery` filter record.  Optional string filters model the
Pydantic `Optional[str]` fields; `limit` and `offset` are the pagination
parameters (`offset` is validated non-negative, hence `Nat`). -/
structure EventQuery where
  category : Option String := none
  action : Option String := none
  actor : Option String := none
  target : Option String := none
  start_time : Option String := none
  end_time : Option String := none
  limit : Nat := 100
  offset : Nat := 0
deriving DecidableEq, Repr

/-- Model of `EventStore._matches_query`.  Each guard `if query.x` uses
Python truthiness, so a missing filter and an empty-string filter both
disable the check (for `category`, enum members are never empty).  The
`target` comparison compares the optional event field against the filter
string; the time-range filters compare the ISO timestamp strings
lexically. -/
def matchesQuery (q : EventQuery) (e : Event) : Bool :=
  if q.category.getD "" ≠ "" && e.category ≠ q.category.getD "" then false
  else if q.action.getD "" ≠ "" && !(strContains e.action (q.action.getD "")) then false
  else if q.actor.getD "" ≠ "" && e.actor ≠ q.actor.getD "" then false
  else if q.target.getD "" ≠ "" && e.target ≠ some (q.target.getD "") then false
  else if q.start_time.getD "" ≠ "" && strLt e.timestamp (q.start_time.getD "") then false
  else if q.end_time.getD "" ≠ "" && strLt (q.end_time.getD "") e.timestamp then false
  else true

/-- The inner loop of `EventStore.query` over one file read newest-first:
append every matching event to the accumulator and break as soon as
`limit + offset` (called `target` here) events have been collected. -/
def collectFrom (target : Nat) (q : EventQuery) :
    List Event → List Event → List Event
  | acc, [] => acc
  | acc, e :: rest =>
    if matchesQuery q e then
      let acc2 := acc ++ [e]
      if target ≤ acc2.length then acc2 else collectFrom target q acc2 rest
    else collectFrom target q acc rest

/-- The outer loop of `EventStore.query` over the globbed files in reverse
(newest-first) listing order, stopping before opening a further file once
`limit + offset` matches are collected. -/
def queryFiles (target : Nat) (q : EventQuery) :
    List SegFile → List Event → List Event
  | [], acc => acc
  | f :: rest, acc =>
    if target ≤ acc.length then acc
    else queryFiles target q rest (collectFrom target q acc (readFileReversed f.lines))

/-- Model of `EventStore.query`: collect matches newest-first across all
segment files, then slice `events[offset : offset + limit]`. -/
def queryStore (q : EventQuery) (dir : List SegFile) : List Event :=
  let events := queryFiles (q.limit + q.offset) q dir.reverse []
  (events.drop q.offset).take q.limit

/-- The `ChainStatus` response record. -/
structure ChainStatus where
  total_events : Nat
  chain_valid : Bool
  first_event_time : Option String
  last_event_time : Option String
  last_hash : String
  file_count : Nat
  total_size_bytes : Nat
deriving DecidableEq, Repr

/-- Line count of a compressed segment as `get_status` computes it:
`len(gzip-decompressed content .strip().split("\n"))` — leading and trailing
blank lines are stripped away with the surrounding whitespace, interior
lines (blank or not) are all counted, and a fully blank file still counts
as one because `"".split("\n") == [""]`. -/
def gzLineCount (l : List Line) : Nat :=
  let t := ((l.dropWhile Line.isBlank).reverse.dropWhile Line.isBlank).reverse
  if t.length = 0 then 1 else t.length

/-- Line count of a plain segment as `get_status` computes it:
`len([l for l in lines if l.strip()])`, the number of non-blank lines. -/
def plainLineCount (l : List Line) : Nat :=
  (l.filter (fun ln => !ln.isBlank)).length

/-- The per-file contribution to `total_events` in `get_status`. -/
def statusCountOf (f : SegFile) : Nat :=
  if f.gz then gzLineCount f.lines else plainLineCount f.lines

/-- Model of `EventStore.get_status`: `total_events` by a full per-line
rescan of every segment (decompressing `.gz` ones), `chain_valid` the
constant `True` (the source comments `# Would need full verify`),
`first_event_time` from the first event yielded by the forward reader on the
first listed file, `last_event_time` set to `datetime.now(timezone.utc)`
(passed in as `now`), plus the in-memory `last_hash`, the file count and the
summed byte sizes (`statSize` abstracts `stat().st_size`). -/
def getStatus (statSize : SegFile → Nat) (now : String) (s : StoreState) :
    ChainStatus :=
  let files := s.dir
  { total_events := (files.map statusCountOf).sum
  , chain_valid := true
  , first_event_time :=
      match files.head? with
      | some f => ((readFileForward f.lines).head?).map Event.timestamp
      | none => none
  , last_event_time := some now
  , last_hash := s.lastHash
  , file_count := files.length
  , total_size_bytes := (files.map statSize).sum }

/-- A single-field mutation of a persisted event record: the field and the
value it is overwritten with on disk. -/
inductive FieldMutation where
  | mId (v : String)
  | mTimestamp (v : String)
  | mCategory (v : String)
  | mAction (v : String)
  | mActor (v : String)
  | mTarget (v : Option String)
  | mData (v : List (String × String))
  | mResult (v : String)
  | mError (v : Option String)
  | mPrev (v : String)
  | mHash (v : String)
deriving DecidableEq, Repr

/-- Apply a single-field mutation to an event record. -/
def applyMutation : FieldMutation → Event → Event
  | .mId v, e => { e with id := v }
  | .mTimestamp v, e => { e with timestamp := v }
  | .mCategory v, e => { e with category := v }
  | .mAction v, e => { e with action := v }
  | .mActor v, e => { e with actor := v }
  | .mTarget v, e => { e with target := v }
  | .mData v, e => { e with data := v }
  | .mResult v, e => { e with result := v }
  | .mError v, e => { e with error := v }
  | .mPrev v, e => { e with previous_hash := v }
  | .mHash v, e => { e with hash := v }

/-- Overwrite the line at global position `i` of the on-disk history (the
concatenation of all listed segment files). -/
def setLineAt : List SegFile → Nat → Line → List SegFile
  | [], _, _ => []
  | f :: rest, i, ln =>
    if i < f.lines.length then { f with lines := f.lines.set i ln } :: rest
    else f :: setLineAt rest (i - f.lines.length) ln

/-- The members of the `EventCategory` enum — the only values the
`category` field of a record may hold for `Event.model_validate_json` to
accept it. -/
def validCategories : List String :=
  ["system", "service", "security", "ai", "user", "config", "error"]

/-- Does an on-disk record still parse as an `Event`?  Every field of the
model is a plain (optional) string or open map except `category`, which is
the closed `EventCategory` enum: Pydantic rejects a record whose `category`
value is not a member. -/
def parsesAsEvent (e : Event) : Bool :=
  validCategories.contains e.category

/-- The on-disk line holding a record: a parseable event line when the
record validates, and an unparseable line otherwise (the raw text of a
rejected record is never inspected by any reader, so it is represented by
the record id). -/
def lineOfRecord (e : Event) : Line :=
  if parsesAsEvent e then .good e else .bad e.id

/-- The listing with, in the file containing global line position `i`, that
line and every later line of the same file removed — how the forward reader
effectively sees a file whose line `i` fails to parse. -/
def truncAt : List SegFile → Nat → List SegFile
  | [], _ => []
  | f :: rest, i =>
    if i < f.lines.length then { f with lines := f.lines.take i } :: rest
    else f :: truncAt rest (i - f.lines.length)

/-- A concrete stand-in for the hash parameter, used only to instantiate
closed witness statements: a delimited dump of all non-`hash` fields. -/
def testHash (b : EventBody) : String :=
  "#" ++ b.id ++ "|" ++ b.timestamp ++ "|" ++ b.category ++ "|" ++ b.action ++
    "|" ++ b.actor ++ "|" ++ b.target.getD "-" ++ "|" ++
    String.intercalate "," (b.data.map (fun p => p.1 ++ ":" ++ p.2)) ++ "|" ++
    b.result ++ "|" ++ b.error.getD "-" ++ "|" ++ b.previous_hash

/-- A fixed caller-supplied event used in the closed witness statements
(chain fields still unset, as a caller would submit it). -/
def sampleEvent : Event :=
  { id := "e1", timestamp := "2025-01-01T00:00:00+00:00", category := "system"
  , action := "boot", actor := "kernel", target := none, data := []
  , result := "success", error := none, previous_hash := GENESIS_HASH
  , hash := "" }

/-- A second caller-supplied event for the witnesses. -/
def sampleEvent2 : Event :=
  { sampleEvent with
      id := "e2", timestamp := "2025-01-02T00:00:00+00:00",
      action := "login", actor := "alice" }

/-- A third caller-supplied event for the witnesses. -/
def sampleEvent3 : Event :=
  { sampleEvent with
      id := "e3", timestamp := "2025-01-03T00:00:00+00:00",
      action := "logout", actor := "bob" }

/-! ## Reader and verifier lemmas -/

/-- No line of the list is unparseable. -/
def NoBadLines (l : List Line) : Prop := ∀ ln ∈ l, ln.isBad = false

/-- Every line of the list is a parseable event record. -/
def AllGoodLines (l : List Line) : Prop := ∀ ln ∈ l, ln.isGood = true

/-- No segment of the listing contains an unparseable line. -/
def NoBadDir (dir : List SegFile) : Prop := ∀ f ∈ dir, NoBadLines f.lines

/-- Every line of every segment of the listing is a parseable event. -/
def AllGoodDir (dir : List SegFile) : Prop := ∀ f ∈ dir, AllGoodLines f.lines

theorem allGoodLines_noBad {l : List Line} (h : AllGoodLines l) : NoBadLines l := by
  intro ln hln
  have := h ln hln
  cases ln <;> simp_all [Line.isGood, Line.isBad]

theorem allGoodDir_noBad {dir : List SegFile} (h : AllGoodDir dir) : NoBadDir dir :=
  fun f hf => allGoodLines_noBad (h f hf)

theorem eventsOfLines_append (l1 l2 : List Line) :
    eventsOfLines (l1 ++ l2) = eventsOfLines l1 ++ eventsOfLines l2 :=
  List.filterMap_append l1 l2 _

theorem allLinesOf_cons (f : SegFile) (rest : List SegFile) :
    allLinesOf (f :: rest) = f.lines ++ allLinesOf rest := by
  simp [allLinesOf]

theorem allEventsOf_cons (f : SegFile) (rest : List SegFile) :
    allEventsOf (f :: rest) = eventsOfLines f.lines ++ allEventsOf rest := by
  simp [allEventsOf, allLinesOf_cons, eventsOfLines_append]

theorem allEventsOf_append (d1 d2 : List SegFile) :
    allEventsOf (d1 ++ d2) = allEventsOf d1 ++ allEventsOf d2 := by
  simp [allEventsOf, allLinesOf, eventsOfLines_append]

/-- The forward reader stops cold at the first unparseable line: everything
from that line on is invisible. -/
theorem readFileForward_append_bad (l1 l2 : List Line) (r : String) :
    readFileForward (l1 ++ .bad r :: l2) = readFileForward l1 := by
  induction l1 with
  | nil => rfl
  | cons x t ih => cases x <;> simp [readFileForward, ih]

/-- On a file without unparseable lines the forward reader yields exactly
the parseable events. -/
theorem readFileForward_eq_eventsOfLines {l : List Line} (h : NoBadLines l) :
    readFileForward l = eventsOfLines l := by
  induction l with
  | nil => rfl
  | cons x t ih =>
    have hx := h x (List.mem_cons_self x t)
    have ht : NoBadLines t := fun ln hln => h ln (List.mem_cons_of_mem _ hln)
    cases x with
    | blank => simpa [readFileForward, eventsOfLines] using ih ht
    | bad r => simp [Line.isBad] at hx
    | good e =>
      simp only [readFileForward, eventsOfLines, List.filterMap_cons]
      simpa [eventsOfLines] using ih ht

theorem verifyEvents_append (H : EventBody → String) (p : String)
    (l1 l2 : List Event) :
    verifyEvents H p (l1 ++ l2) =
      match verifyEvents H p l1 with
      | .ok h => verifyEvents H h l2
      | .fail m => VerifyResult.fail m := by
  induction l1 generalizing p with
  | nil => rfl
  | cons e t ih =>
    simp only [List.cons_append, verifyEvents]
    split_ifs <;> simp [ih]

theorem runChain_append (H : EventBody → String) (p : String)
    (d1 d2 : List SegFile) :
    runChain H p (d1 ++ d2) =
      match runChain H p d1 with
      | .ok h => runChain H h d2
      | .fail m => VerifyResult.fail m := by
  induction d1 generalizing p with
  | nil => rfl
  | cons f rest ih =>
    simp only [List.cons_append, runChain]
    cases verifyEvents H p (readFileForward f.lines) <;> simp [ih]

/-- On a listing without unparseable lines, the file-by-file scan of
`verify_chain` is the plain event-by-event scan of the concatenated
history. -/
theorem runChain_eq_verifyEvents (H : EventBody → String) (p : String)
    {dir : List SegFile} (h : NoBadDir dir) :
    runChain H p dir = verifyEvents H p (allEventsOf dir) := by
  induction dir generalizing p with
  | nil => rfl
  | cons f rest ih =>
    have hf : NoBadLines f.lines := h f (List.mem_cons_self f rest)
    have hrest : NoBadDir rest := fun g hg => h g (List.mem_cons_of_mem _ hg)
    rw [allEventsOf_cons, verifyEvents_append]
    simp only [runChain, readFileForward_eq_eventsOfLines hf]
    cases verifyEvents H p (eventsOfLines f.lines) with
    | ok hh => simpa using ih hh hrest
    | fail m => simp

/-! ## Append-path lemmas and the chain invariant -/

/-- The event actually persisted by `append`: the caller event with its
chain link set to the current `last_hash` and its hash computed. -/
def chainEvent (H : EventBody → String) (prevHash : String) (e : Event) : Event :=
  withHash H { e with previous_hash := prevHash }

theorem chainEvent_spec (H : EventBody → String) (p : String) (e : Event) :
    (chainEvent H p e).previous_hash = p ∧
    (chainEvent H p e).hash = computeHash H (chainEvent H p e) :=
  ⟨rfl, rfl⟩

/-- States whose `current_file` bookkeeping is consistent: a file on disk in
the active slot implies a set `current_file` path. -/
def ShapeOK (s : StoreState) : Prop := s.activeName = none → s.activeLines = none

theorem allGoodDir_append {d1 d2 : List SegFile} :
    AllGoodDir (d1 ++ d2) ↔ AllGoodDir d1 ∧ AllGoodDir d2 := by
  simp [AllGoodDir, List.mem_append, or_imp, forall_and]

theorem allGoodLines_append {l1 l2 : List Line} :
    AllGoodLines (l1 ++ l2) ↔ AllGoodLines l1 ∧ AllGoodLines l2 := by
  simp [AllGoodLines, List.mem_append, or_imp, forall_and]

theorem allGoodLines_single_good {e : Event} : AllGoodLines [.good e] := by
  intro ln hln
  simp at hln
  subst hln
  rfl

theorem allGoodDir_iff_lines {dir : List SegFile} :
    AllGoodDir dir ↔ AllGoodLines (allLinesOf dir) := by
  constructor
  · intro h ln hln
    rw [allLinesOf, List.mem_flatten] at hln
    obtain ⟨l, hl, hln⟩ := hln
    rw [List.mem_map] at hl
    obtain ⟨f, hf, rfl⟩ := hl
    exact h f hf ln hln
  · intro h f hf ln hln
    refine h ln ?_
    rw [allLinesOf, List.mem_flatten]
    exact ⟨f.lines, List.mem_map_of_mem _ hf, hln⟩

theorem appendEvent_facts (H : EventBody → String) (lz : Line → Nat)
    (mb : Nat) (now : String) (s : StoreState) (e : Event)
    (hshape : ShapeOK s) :
    allLinesOf (appendEvent H lz mb now false s e).1.dir
        = allLinesOf s.dir ++ [.good (chainEvent H s.lastHash e)]
    ∧ (appendEvent H lz mb now false s e).1.lastHash
        = (chainEvent H s.lastHash e).hash
    ∧ ShapeOK (appendEvent H lz mb now false s e).1 := by
  obtain ⟨c, an, al, lh, ec⟩ := s
  cases an with
  | none =>
    cases al with
    | none =>
      refine ⟨?_, rfl, ?_⟩
      · simp [appendEvent, rotateIfNeeded, ensureActive, StoreState.dir,
              allLinesOf, chainEvent]
      · simp [ShapeOK, appendEvent, rotateIfNeeded, ensureActive]
    | some ls =>
      exact absurd (hshape rfl) (by simp)
  | some n =>
    cases al with
    | none =>
      refine ⟨?_, rfl, ?_⟩
      · simp [appendEvent, rotateIfNeeded, ensureActive, StoreState.dir,
              allLinesOf, chainEvent]
      · simp [ShapeOK, appendEvent, rotateIfNeeded, ensureActive]
    | some ls =>
      by_cases hrot : mb ≤ fileBytes lz ls
      · refine ⟨?_, ?_, ?_⟩
        · simp [appendEvent, rotateIfNeeded, ensureActive, hrot, StoreState.dir,
                allLinesOf, chainEvent]
        · simp [appendEvent, rotateIfNeeded, ensureActive, hrot, chainEvent]
        · simp [ShapeOK, appendEvent, rotateIfNeeded, ensureActive, hrot]
      · refine ⟨?_, ?_, ?_⟩
        · simp [appendEvent, rotateIfNeeded, ensureActive, hrot, StoreState.dir,
                allLinesOf, chainEvent]
        · simp [appendEvent, rotateIfNeeded, ensureActive, hrot, chainEvent]
        · simp [ShapeOK, appendEvent, rotateIfNeeded, ensureActive, hrot]

/-- The invariant maintained by the append path: consistent `current_file`
bookkeeping, a history of parseable event lines only, and a chain that scans
cleanly from genesis up to the in-memory `last_hash`. -/
def StoreInv (H : EventBody → String) (s : StoreState) : Prop :=
  ShapeOK s ∧ AllGoodDir s.dir ∧
    verifyEvents H GENESIS_HASH (allEventsOf s.dir) = .ok s.lastHash

theorem storeInv_initStore_nil (H : EventBody → String) (now : String) :
    StoreInv H (initStore [] now) := by
  refine ⟨fun _ => rfl, ?_, rfl⟩
  intro f hf
  simp [initStore, StoreState.dir] at hf

theorem storeInv_append (H : EventBody → String) (lz : Line → Nat) (mb : Nat)
    (now : String) (s : StoreState) (e : Event) (h : StoreInv H s) :
    StoreInv H (appendEvent H lz mb now false s e).1 := by
  obtain ⟨hs, hg, hv⟩ := h
  obtain ⟨hln, hlh, hsp⟩ := appendEvent_facts H lz mb now s e hs
  have hev : allEventsOf (appendEvent H lz mb now false s e).1.dir
      = allEventsOf s.dir ++ [chainEvent H s.lastHash e] := by
    rw [allEventsOf, hln, eventsOfLines_append]
    rfl
  have hgood : AllGoodDir (appendEvent H lz mb now false s e).1.dir := by
    rw [allGoodDir_iff_lines, hln, allGoodLines_append]
    exact ⟨allGoodDir_iff_lines.mp hg, allGoodLines_single_good⟩
  refine ⟨hsp, hgood, ?_⟩
  rw [hev, verifyEvents_append, hv, hlh]
  have hc := chainEvent_spec H s.lastHash e
  simp [verifyEvents, hc.1, hc.2]

theorem storeInv_appendAll (H : EventBody → String) (lz : Line → Nat) (mb : Nat) :
    ∀ (inputs : List (String × Event)) (s : StoreState), StoreInv H s →
      StoreInv H (appendAll H lz mb s inputs)
  | [], _, h => h
  | (now, e) :: rest, s, h =>
    storeInv_appendAll H lz mb rest _ (storeInv_append H lz mb now s e h)

/-- The store state reached from a fresh data directory by a sequence of
successful appends (each paired with the clock value a rotation would use
for file naming). -/
def storeAfter (H : EventBody → String) (lineSize : Line → Nat) (maxBytes : Nat)
    (now0 : String) (inputs : List (String × Event)) : StoreState :=
  appendAll H lineSize maxBytes (initStore [] now0) inputs

/-- C1: for every sequence of N ≥ 0 events appended through
`EventStore.append` to a fresh store (no prior on-disk data),
`verify_chain` immediately afterwards returns valid — `(True, None)`. -/
theorem fresh_appends_verify_valid (H : EventBody → String)
    (lineSize : Line → Nat) (maxBytes : Nat) (now0 : String)
    (inputs : List (String × Event)) :
    verifyChain H (storeAfter H lineSize maxBytes now0 inputs).dir = (true, none) := by
  obtain ⟨-, hg, hv⟩ :=
    storeInv_appendAll H lineSize maxBytes inputs _ (storeInv_initStore_nil H now0)
  unfold verifyChain storeAfter
  rw [runChain_eq_verifyEvents H GENESIS_HASH (allGoodDir_noBad hg), hv]

/-! ## Position lemmas for tamper detection -/

/-- The running hash `verify_chain` holds when it reaches position `i` of a
span it started scanning with running hash `p`. -/
def chainPrevAt (p : String) (l : List Event) (i : Nat) : String :=
  (((l.take i).getLast?).map Event.hash).getD p

theorem chainPrevAt_cons (p : String) (e : Event) (t : List Event) (i : Nat) :
    chainPrevAt p (e :: t) (i + 1) = chainPrevAt e.hash t i := by
  cases h : (t.take i).getLast? <;>
    simp [chainPrevAt, List.take_succ_cons, List.getLast?_cons, h]

theorem verifyEvents_cons_ok {H : EventBody → String} {p h : String} {e : Event}
    {t : List Event} (hv : verifyEvents H p (e :: t) = .ok h) :
    e.previous_hash = p ∧ e.hash = computeHash H e ∧
      verifyEvents H e.hash t = .ok h := by
  by_cases h1 : e.previous_hash = p
  · by_cases h2 : e.hash = computeHash H e
    · refine ⟨h1, h2, ?_⟩
      simpa [verifyEvents, h1, h2] using hv
    · simp [verifyEvents, h1, h2] at hv
  · simp [verifyEvents, h1] at hv

theorem verifyEvents_ok_facts {H : EventBody → String} :
    ∀ {l : List Event} {p h : String}, verifyEvents H p l = .ok h →
      ∀ (i : Nat) (hi : i < l.length),
        (l.get ⟨i, hi⟩).previous_hash = chainPrevAt p l i ∧
        (l.get ⟨i, hi⟩).hash = computeHash H (l.get ⟨i, hi⟩)
  | [], _, _, _, i, hi => absurd hi (by simp)
  | e :: t, p, h, hv, 0, hi => by
    obtain ⟨h1, h2, -⟩ := verifyEvents_cons_ok hv
    exact ⟨h1, h2⟩
  | e :: t, p, h, hv, i + 1, hi => by
    obtain ⟨-, -, h3⟩ := verifyEvents_cons_ok hv
    rw [chainPrevAt_cons]
    exact verifyEvents_ok_facts h3 i (Nat.lt_of_succ_lt_succ hi)

/-- The event-level check `verify_chain` applies at one position: it rejects
when the link or the recomputed hash does not match. -/
def checkFails (H : EventBody → String) (prev : String) (e : Event) : Prop :=
  ¬ (e.previous_hash = prev ∧ e.hash = computeHash H e)

theorem verifyEvents_set_fails {H : EventBody → String} :
    ∀ {l : List Event} {p h : String}, verifyEvents H p l = .ok h →
      ∀ {i : Nat}, i < l.length → ∀ {e' : Event},
        checkFails H (chainPrevAt p l i) e' →
        ∃ msg, verifyEvents H p (l.set i e') = .fail msg
  | [], _, _, _, i, hi, _, _ => absurd hi (by simp)
  | e :: t, p, h, _, 0, _, e', hbad => by
    rw [List.set_cons_zero]
    by_cases h1 : e'.previous_hash = p
    · by_cases h2 : e'.hash = computeHash H e'
      · exact absurd ⟨h1, h2⟩ hbad
      · exact ⟨hashMismatchMsg H e', by simp [verifyEvents, h1, h2]⟩
    · exact ⟨chainBrokenMsg e' p, by simp [verifyEvents, h1]⟩
  | e :: t, p, h, hv, i + 1, hi, e', hbad => by
    obtain ⟨h1, h2, h3⟩ := verifyEvents_cons_ok hv
    rw [chainPrevAt_cons] at hbad
    obtain ⟨msg, hm⟩ := verifyEvents_set_fails h3 (Nat.lt_of_succ_lt_succ hi) hbad
    refine ⟨msg, ?_⟩
    rw [List.set_cons_succ]
    rw [h2] at hm
    simp [verifyEvents, h1, h2, hm]

theorem firstBadIdx_set {H : EventBody → String} :
    ∀ {l : List Event} {p h : String}, verifyEvents H p l = .ok h →
      ∀ {i : Nat}, i < l.length → ∀ {e' : Event},
        checkFails H (chainPrevAt p l i) e' → ∀ (k : Nat),
        firstBadIdx H p k (l.set i e') = some (k + i)
  | [], _, _, _, i, hi, _, _, _ => absurd hi (by simp)
  | e :: t, p, h, _, 0, _, e', hbad, k => by
    rw [List.set_cons_zero]
    have hb : ¬(e'.previous_hash = p ∧ e'.hash = computeHash H e') := hbad
    simp [firstBadIdx, hb]
  | e :: t, p, h, hv, i + 1, hi, e', hbad, k => by
    obtain ⟨h1, h2, h3⟩ := verifyEvents_cons_ok hv
    rw [chainPrevAt_cons] at hbad
    have hrec := firstBadIdx_set h3 (Nat.lt_of_succ_lt_succ hi) hbad (k + 1)
    rw [List.set_cons_succ, show k + (i + 1) = (k + 1) + i by omega]
    rw [h2] at hrec
    simp [firstBadIdx, h1, h2, hrec]

/-! ## On-disk mutation lemmas -/

theorem allLinesOf_setLineAt :
    ∀ (dir : List SegFile) (i : Nat) (ln : Line),
      allLinesOf (setLineAt dir i ln) = (allLinesOf dir).set i ln
  | [], i, ln => by simp [setLineAt, allLinesOf]
  | f :: rest, i, ln => by
    by_cases h : i < f.lines.length
    · simp [setLineAt, h, allLinesOf_cons, List.set_append_left _ _ h]
    · simp [setLineAt, h, allLinesOf_cons,
            allLinesOf_setLineAt rest (i - f.lines.length) ln,
            List.set_append_right _ _ (Nat.le_of_not_lt h)]

theorem eventsOfLines_map_good :
    ∀ (l : List Event), eventsOfLines (l.map Line.good) = l
  | [] => rfl
  | e :: t => by
    simp only [List.map_cons, eventsOfLines, List.filterMap_cons]
    simpa [eventsOfLines] using eventsOfLines_map_good t

theorem lines_eq_map_good : ∀ {l : List Line}, AllGoodLines l →
    l = (eventsOfLines l).map Line.good
  | [], _ => rfl
  | x :: t, h => by
    have hx := h x (List.mem_cons_self x t)
    have ht : AllGoodLines t := fun ln hln => h ln (List.mem_cons_of_mem _ hln)
    cases x with
    | blank => simp [Line.isGood] at hx
    | bad r => simp [Line.isGood] at hx
    | good e =>
      have ih := lines_eq_map_good ht
      simp only [eventsOfLines, List.filterMap_cons]
      simpa [eventsOfLines] using ih

theorem allEventsOf_setLineAt_good {dir : List SegFile} (hg : AllGoodDir dir)
    (i : Nat) (e' : Event) :
    allEventsOf (setLineAt dir i (.good e')) = (allEventsOf dir).set i e' := by
  have hl : allLinesOf dir = (allEventsOf dir).map Line.good :=
    lines_eq_map_good (allGoodDir_iff_lines.mp hg)
  rw [allEventsOf, allLinesOf_setLineAt, hl, ← List.map_set, eventsOfLines_map_good]

theorem allGoodDir_setLineAt_good {dir : List SegFile} (hg : AllGoodDir dir)
    (i : Nat) (e' : Event) : AllGoodDir (setLineAt dir i (.good e')) := by
  rw [allGoodDir_iff_lines, allLinesOf_setLineAt]
  intro ln hln
  rcases List.mem_or_eq_of_mem_set hln with h1 | h1
  · exact allGoodDir_iff_lines.mp hg ln h1
  · subst h1; rfl

theorem mutation_cases (m : FieldMutation) (e : Event)
    (hne : applyMutation m e ≠ e) :
    ((applyMutation m e).previous_hash ≠ e.previous_hash)
    ∨ ((applyMutation m e).body = e.body ∧ (applyMutation m e).hash ≠ e.hash)
    ∨ ((applyMutation m e).body ≠ e.body ∧ (applyMutation m e).hash = e.hash
        ∧ (applyMutation m e).previous_hash = e.previous_hash) := by
  obtain ⟨i0, t0, c0, a0, r0, g0, d0, s0, er0, p0, h0⟩ := e
  cases m <;>
    simp_all [applyMutation, Event.body, EventBody.mk.injEq, Event.mk.injEq]

/-- A mutated event necessarily fails the check `verify_chain` applies at
its position, provided the hash function does not collide on the original
and mutated serializations. -/
theorem mutation_breaks_check (H : EventBody → String) (m : FieldMutation)
    (e : Event) (prev : String) (hprev : e.previous_hash = prev)
    (hhash : e.hash = computeHash H e) (hne : applyMutation m e ≠ e)
    (hcoll : H (applyMutation m e).body = H e.body →
      (applyMutation m e).body = e.body) :
    checkFails H prev (applyMutation m e) := by
  rcases mutation_cases m e hne with hca | ⟨hb, hh⟩ | ⟨hb, hh, hp⟩
  · intro hc
    exact hca (hc.1.trans hprev.symm)
  · intro hc
    refine hh ?_
    have h2 : (applyMutation m e).hash = H (applyMutation m e).body := hc.2
    rw [hb] at h2
    rw [h2, hhash]
    rfl
  · intro hc
    have h2 : (applyMutation m e).hash = H (applyMutation m e).body := hc.2
    have h3 : e.hash = H e.body := hhash
    rw [hh, h3] at h2
    exact hb (hcoll h2.symm)

/-- Overwriting line `i` with an unparseable record makes the forward
reader see the file as truncated just before position `i`. -/
theorem readFileForward_set_bad (l : List Line) (i : Nat) (r : String) :
    readFileForward (l.set i (.bad r)) = readFileForward (l.take i) := by
  by_cases h : i < l.length
  · conv_lhs => rw [List.set_eq_take_cons_drop _ h]
    rw [readFileForward_append_bad]
  · rw [List.set_eq_of_length_le (Nat.le_of_not_lt h),
        List.take_of_length_le (Nat.le_of_not_lt h)]

theorem runChain_setLineAt_bad (H : EventBody → String) (r : String) :
    ∀ (dir : List SegFile) (p : String) (i : Nat),
      runChain H p (setLineAt dir i (.bad r)) = runChain H p (truncAt dir i)
  | [], _, _ => rfl
  | f :: rest, p, i => by
    by_cases h : i < f.lines.length
    · simp only [setLineAt, truncAt, h, if_pos, runChain,
                 readFileForward_set_bad]
    · simp only [setLineAt, truncAt, h, if_false, runChain]
      cases verifyEvents H p (readFileForward f.lines) with
      | fail m => rfl
      | ok hh => exact runChain_setLineAt_bad H r rest hh (i - f.lines.length)

/-- A record that no longer parses is, once written back, invisible to
verification from its position to the end of its file: `verify_chain`
behaves exactly as if the file were truncated there. -/
theorem verifyChain_setLineAt_bad (H : EventBody → String)
    (dir : List SegFile) (i : Nat) (r : String) :
    verifyChain H (setLineAt dir i (.bad r)) = verifyChain H (truncAt dir i) := by
  unfold verifyChain
  rw [runChain_setLineAt_bad]

/-- C2 (amended): for every chain persisted by a sequence of appends on a
fresh store and every single-field overwrite of one persisted record on
disk (without recomputing downstream hashes or links): when the mutated
record still parses — its `category` still names an enum member —
`verify_chain` returns invalid with the first failing position exactly the
mutated event (the collision hypothesis `hcoll` states that SHA-256 does
not collide on the original and mutated serializations); but when the
mutated record no longer parses, the reader silently swallows it, and
verification behaves exactly as if the file were truncated at the mutated
line — so a parse-breaking mutation at the tail of the history yields a
false valid. -/
theorem single_field_tamper_detection_scope (H : EventBody → String)
    (lineSize : Line → Nat) (maxBytes : Nat) (now0 : String)
    (inputs : List (String × Event)) (i : Nat) (m : FieldMutation) (e : Event)
    (hi : i < (allEventsOf (storeAfter H lineSize maxBytes now0 inputs).dir).length)
    (hget : (allEventsOf (storeAfter H lineSize maxBytes now0 inputs).dir).get ⟨i, hi⟩ = e)
    (hne : applyMutation m e ≠ e)
    (hcoll : H (applyMutation m e).body = H e.body →
      (applyMutation m e).body = e.body) :
    (parsesAsEvent (applyMutation m e) = true →
      (verifyChain H (setLineAt (storeAfter H lineSize maxBytes now0 inputs).dir i
          (lineOfRecord (applyMutation m e)))).1 = false
      ∧ firstFailAt H (setLineAt (storeAfter H lineSize maxBytes now0 inputs).dir i
          (lineOfRecord (applyMutation m e))) = some i)
    ∧ (parsesAsEvent (applyMutation m e) = false →
      verifyChain H (setLineAt (storeAfter H lineSize maxBytes now0 inputs).dir i
          (lineOfRecord (applyMutation m e)))
        = verifyChain H (truncAt (storeAfter H lineSize maxBytes now0 inputs).dir i)) := by
  constructor
  · intro hparse
    have hl : lineOfRecord (applyMutation m e) = .good (applyMutation m e) := by
      simp [lineOfRecord, hparse]
    rw [hl]
    obtain ⟨-, hg, hv⟩ :=
      storeInv_appendAll H lineSize maxBytes inputs _ (storeInv_initStore_nil H now0)
    unfold storeAfter at hi hget ⊢
    obtain ⟨hf1, hf2⟩ := verifyEvents_ok_facts hv i hi
    rw [hget] at hf1 hf2
    have hbad := mutation_breaks_check H m e _ hf1 hf2 hne hcoll
    have hset := allEventsOf_setLineAt_good hg i (applyMutation m e)
    have hgood := allGoodDir_setLineAt_good hg i (applyMutation m e)
    obtain ⟨msg, hmsg⟩ := verifyEvents_set_fails hv hi hbad
    constructor
    · unfold verifyChain
      rw [runChain_eq_verifyEvents H GENESIS_HASH (allGoodDir_noBad hgood), hset, hmsg]
    · rw [firstFailAt, hset, firstBadIdx_set hv hi hbad 0, Nat.zero_add]
  · intro hparse
    have hl : lineOfRecord (applyMutation m e) = .bad (applyMutation m e).id := by
      simp [lineOfRecord, hparse]
    rw [hl]
    exact verifyChain_setLineAt_bad H _ i _

/-- Closed witness for the tamper-detection theorem: a two-event chain with
the `action` field of the first persisted record overwritten on disk (a
mutation that keeps the record parseable). -/
theorem single_field_tamper_detection_scope_witness :
    (applyMutation (.mAction "evil") (chainEvent testHash GENESIS_HASH sampleEvent)
        ≠ chainEvent testHash GENESIS_HASH sampleEvent)
    ∧ parsesAsEvent (applyMutation (.mAction "evil")
        (chainEvent testHash GENESIS_HASH sampleEvent)) = true
    ∧ ((verifyChain testHash (setLineAt (storeAfter testHash (fun _ => 1) 1000
          "20250101_000000"
          [("20250101_000001", sampleEvent), ("20250101_000002", sampleEvent2)]).dir 0
          (lineOfRecord (applyMutation (.mAction "evil")
            (chainEvent testHash GENESIS_HASH sampleEvent))))).1 = false
      ∧ firstFailAt testHash (setLineAt (storeAfter testHash (fun _ => 1) 1000
          "20250101_000000"
          [("20250101_000001", sampleEvent), ("20250101_000002", sampleEvent2)]).dir 0
          (lineOfRecord (applyMutation (.mAction "evil")
            (chainEvent testHash GENESIS_HASH sampleEvent)))) = some 0) :=
  ⟨by decide, by decide,
   (single_field_tamper_detection_scope testHash (fun _ => 1) 1000 "20250101_000000"
     [("20250101_000001", sampleEvent), ("20250101_000002", sampleEvent2)] 0
     (.mAction "evil") (chainEvent testHash GENESIS_HASH sampleEvent)
     (by decide) (by decide) (by decide) (by decide)).1 (by decide)⟩

/-- C2 counterexample: overwriting the single `category` field of the last
persisted record with a value outside the enum (`"system"` becomes `"sys"`)
makes that line unparseable; the reader swallows the parse failure and
`verify_chain` returns `(True, None)` — a false valid on a tampered chain. -/
theorem category_tamper_false_valid :
    parsesAsEvent (applyMutation (.mCategory "sys")
        (chainEvent testHash GENESIS_HASH sampleEvent)) = false
    ∧ applyMutation (.mCategory "sys") (chainEvent testHash GENESIS_HASH sampleEvent)
        ≠ chainEvent testHash GENESIS_HASH sampleEvent
    ∧ verifyChain testHash
        (setLineAt (storeAfter testHash (fun _ => 1) 1000 "20250101_000000"
          [("20250101_000001", sampleEvent)]).dir 0
          (lineOfRecord (applyMutation (.mCategory "sys")
            (chainEvent testHash GENESIS_HASH sampleEvent))))
      = (true, none) := by
  refine ⟨rfl, by decide, by decide⟩

/-- C3 (amended): an unreadable or unparseable line is never itself reported
as a failure: the reader silently stops at the first malformed line of a
file, so verification behaves exactly as if that file were truncated just
before the malformed line — the line and everything after it in that file
are invisible to `verify_chain`. -/
theorem verify_skips_malformed_tail (H : EventBody → String)
    (dA dB : List SegFile) (n : String) (g : Bool) (l1 l2 : List Line)
    (r : String) :
    verifyChain H (dA ++ ⟨n, g, l1 ++ .bad r :: l2⟩ :: dB)
      = verifyChain H (dA ++ ⟨n, g, l1⟩ :: dB) := by
  unfold verifyChain
  rw [runChain_append, runChain_append]
  cases runChain H GENESIS_HASH dA with
  | fail m => rfl
  | ok hh => simp [runChain, readFileForward_append_bad]

/-- C3 counterexample: a stored history whose single segment ends in a
malformed line at chain position 1 makes `verify_chain` return
`(True, None)` — the malformed line is silently skipped, not reported. -/
theorem verify_malformed_tail_accepted :
    verifyChain testHash
      [⟨"20250101_000000", false,
        [.good (chainEvent testHash GENESIS_HASH sampleEvent), .bad "not json"]⟩]
      = (true, none)
    ∧ ([Line.good (chainEvent testHash GENESIS_HASH sampleEvent),
        Line.bad "not json"].getD 1 .blank).isBad = true := by
  constructor <;> decide

/-- C4: when the file write inside `append` raises an I/O error, the error
propagates to the caller and the in-memory `last_hash` and `event_count`
are exactly what they were before the call — no event is half-committed. -/
theorem append_write_failure_leaves_state (H : EventBody → String)
    (lineSize : Line → Nat) (maxBytes : Nat) (now : String)
    (s : StoreState) (e : Event) :
    (appendEvent H lineSize maxBytes now true s e).1.lastHash = s.lastHash
    ∧ (appendEvent H lineSize maxBytes now true s e).1.eventCount = s.eventCount
    ∧ ∃ msg, (appendEvent H lineSize maxBytes now true s e).2 = .error msg := by
  obtain ⟨c, an, al, lh, ec⟩ := s
  cases an <;> cases al <;>
    (simp only [appendEvent, rotateIfNeeded, ensureActive]; split_ifs <;> simp)

/-- C10: `get_status` reports `chain_valid = True` for every store state —
the field is the constant `True`, never derived from any verification of
the stored data. -/
theorem getStatus_chain_valid_constant (statSize : SegFile → Nat)
    (now : String) (s : StoreState) :
    (getStatus statSize now s).chain_valid = true := rfl

/-- The store state of the retention counterexample: the active segment is
the only file on disk and its name-encoded date is far in the past. -/
def staleActiveStore : StoreState :=
  { closed := [], activeName := some "20200101_000000"
  , activeLines := some [.good (chainEvent testHash GENESIS_HASH sampleEvent)]
  , lastHash := (chainEvent testHash GENESIS_HASH sampleEvent).hash
  , eventCount := 1 }

/-- C5 counterexample: `cleanup_old_events` deletes the currently active
segment when its name-encoded date is older than the retention cutoff —
after cleanup the listing is empty, active file included. -/
theorem cleanup_deletes_active_segment :
    staleActiveStore.dir =
      [⟨"20200101_000000", false,
        [.good (chainEvent testHash GENESIS_HASH sampleEvent)]⟩]
    ∧ staleActiveStore.activeName = some "20200101_000000"
    ∧ (cleanupOldEvents "20250914" staleActiveStore).dir = [] := by
  refine ⟨rfl, rfl, ?_⟩
  decide

/-- C5 (amended): retention keeps exactly the listed segment files whose
name-encoded date is not lexically before the cutoff; a segment dated on or
after the cutoff is never deleted, but the active segment is not exempt —
it is deleted like any other file whenever its date is old. -/
theorem cleanup_filters_by_date_only (c : String) (s : StoreState)
    (f : SegFile) :
    f ∈ (cleanupOldEvents c s).dir ↔ f ∈ s.dir ∧ strLt f.datePart c = false := by
  obtain ⟨cl, an, al, lh, ec⟩ := s
  cases an with
  | none =>
    cases al <;>
      simp [cleanupOldEvents, StoreState.dir, List.mem_filter]
  | some n =>
    cases al with
    | none =>
      simp [cleanupOldEvents, StoreState.dir, List.mem_filter]
    | some ls =>
      by_cases hd : strLt (SegFile.datePart ⟨n, false, ls⟩) c = true
      · simp only [cleanupOldEvents, StoreState.dir, hd, if_pos]
        simp only [List.mem_filter, List.mem_append, List.append_nil,
                   List.mem_singleton, Bool.not_eq_true']
        constructor
        · rintro ⟨hin, hnd⟩
          exact ⟨Or.inl hin, hnd⟩
        · rintro ⟨hin | rfl, hnd⟩
          · exact ⟨hin, hnd⟩
          · exact absurd hd (by simp [hnd])
      · rw [Bool.not_eq_true] at hd
        simp only [cleanupOldEvents, StoreState.dir, hd, Bool.false_eq_true,
                   if_false]
        simp only [List.mem_append, List.mem_filter, List.mem_singleton,
                   Bool.not_eq_true']
        constructor
        · rintro (⟨hin, hnd⟩ | rfl)
          · exact ⟨Or.inl hin, hnd⟩
          · exact ⟨Or.inr rfl, hd⟩
        · rintro ⟨hin | rfl, hnd⟩
          · exact Or.inl ⟨hin, hnd⟩
          · exact Or.inr rfl

/-! ## Query pagination lemmas -/

theorem collectFrom_eq (q : EventQuery) :
    ∀ (l acc : List Event) (target : Nat), acc.length < target →
      collectFrom target q acc l =
        acc ++ (l.filter (matchesQuery q)).take (target - acc.length)
  | [], acc, target, _ => by simp [collectFrom]
  | e :: rest, acc, target, h => by
    by_cases hm : matchesQuery q e
    · by_cases hstop : target ≤ (acc ++ [e]).length
      · have h1 : target - acc.length = 1 := by
          simp only [List.length_append, List.length_singleton] at hstop
          omega
        simp [collectFrom, hm, hstop, List.filter_cons_of_pos hm, h1]
        intro hcon
        exact absurd hstop (by omega)
      · have hlt : (acc ++ [e]).length < target := Nat.lt_of_not_le hstop
        have h2 : target - acc.length = (target - (acc ++ [e]).length) + 1 := by
          simp only [List.length_append, List.length_singleton] at hlt ⊢
          omega
        simp only [collectFrom, hm, if_true, hstop, if_false,
                   collectFrom_eq q rest (acc ++ [e]) target hlt,
                   List.filter_cons_of_pos hm, h2, List.take_succ_cons,
                   List.append_assoc, List.cons_append, List.nil_append]
    · simp only [collectFrom, hm, if_false,
                 collectFrom_eq q rest acc target h,
                 List.filter_cons_of_neg (by simpa using hm)]
      simp

theorem queryFiles_eq (q : EventQuery) :
    ∀ (files : List SegFile) (acc : List Event) (target : Nat),
      acc.length ≤ target →
      queryFiles target q files acc =
        acc ++ ((files.map (fun f => readFileReversed f.lines)).flatten.filter
          (matchesQuery q)).take (target - acc.length)
  | [], acc, target, _ => by simp [queryFiles]
  | f :: rest, acc, target, h => by
    by_cases hstop : target ≤ acc.length
    · have h0 : target - acc.length = 0 := by omega
      simp [queryFiles, hstop, h0]
    · have hlt : acc.length < target := Nat.lt_of_not_le hstop
      have hcf := collectFrom_eq q (readFileReversed f.lines) acc target hlt
      have hlen : (collectFrom target q acc (readFileReversed f.lines)).length ≤ target := by
        rw [hcf]
        simp only [List.length_append, List.length_take]
        omega
      simp only [queryFiles, hstop, if_false]
      rw [queryFiles_eq q rest _ target hlen, hcf]
      simp only [List.map_cons, List.flatten_cons, List.filter_append,
                 List.take_append_eq_append_take, List.append_assoc,
                 List.length_append, List.length_take]
      congr 2
      congr 1
      omega

/-- Reading the files newest-first and each file in reverse line order
yields the newest-first sequence of all events, on histories free of
unparseable lines. -/
theorem flatten_reversed_reads {dir : List SegFile} (hnb : NoBadDir dir) :
    (dir.reverse.map (fun f => readFileReversed f.lines)).flatten
      = (allEventsOf dir).reverse := by
  induction dir with
  | nil => rfl
  | cons f rest ih =>
    have hf : NoBadLines f.lines := hnb f (List.mem_cons_self f rest)
    have hrest : NoBadDir rest := fun g hg => hnb g (List.mem_cons_of_mem _ hg)
    have hrev : NoBadLines f.lines.reverse := fun ln hln =>
      hf ln (List.mem_reverse.mp hln)
    simp only [List.reverse_cons, List.map_append, List.flatten_append, ih hrest,
               allEventsOf_cons, List.reverse_append, List.map_cons, List.map_nil,
               List.flatten_cons, List.flatten_nil, List.append_nil]
    rw [readFileReversed, readFileForward_eq_eventsOfLines hrev]
    rw [show eventsOfLines f.lines.reverse = (eventsOfLines f.lines).reverse from
      List.filterMap_reverse _ _]

/-- C6 (amended): on histories free of unparseable lines, `query(limit = L,
offset = O)` returns exactly elements `O` through `O + L - 1` of the
newest-first list of matching events, and an offset at or beyond the number
of matches yields the empty list rather than an error.  The restriction is
necessary: an unparseable line stops the reversed per-file reader, so every
event older than the last malformed line of a file is invisible to `query`
(the scan does not skip and continue), and the returned window can fall
short of the promised slice. -/
theorem query_paginates_newest_first (q : EventQuery) (dir : List SegFile)
    (hnb : NoBadDir dir) :
    queryStore q dir =
      (((allEventsOf dir).reverse.filter (matchesQuery q)).drop q.offset).take q.limit
    ∧ (((allEventsOf dir).reverse.filter (matchesQuery q)).length ≤ q.offset →
        queryStore q dir = []) := by
  have hmain : queryStore q dir =
      (((allEventsOf dir).reverse.filter (matchesQuery q)).drop q.offset).take q.limit := by
    unfold queryStore
    rw [queryFiles_eq q dir.reverse [] (q.limit + q.offset) (by simp),
        flatten_reversed_reads hnb]
    simp only [List.nil_append, Nat.sub_zero, List.drop_take,
               Nat.add_sub_cancel_left, Nat.add_sub_cancel]
    rw [List.take_take]
    simp [Nat.min_self]
  refine ⟨hmain, fun hlen => ?_⟩
  rw [hmain, List.drop_eq_nil_of_le hlen, List.take_nil]

/-- The history of the pagination counterexample: one plain segment whose
second line is unparseable, with one parseable event below it and two
above. -/
def dirWithBadLine : List SegFile :=
  [⟨"20250101_000000", false,
    [.good sampleEvent, .bad "not json", .good sampleEvent2, .good sampleEvent3]⟩]

/-- C6 counterexample: with an unparseable line in the middle of a segment,
`query(limit = 3, offset = 0)` returns only the two events above the
malformed line — not the three most-recent matching events — because the
reversed reader stops at the malformed line instead of skipping it. -/
theorem query_truncated_by_malformed :
    queryStore { limit := 3, offset := 0 } dirWithBadLine
      = [sampleEvent3, sampleEvent2]
    ∧ ((((allEventsOf dirWithBadLine).reverse.filter
          (matchesQuery { limit := 3, offset := 0 })).drop 0).take 3)
      = [sampleEvent3, sampleEvent2, sampleEvent]
    ∧ ([sampleEvent3, sampleEvent2] : List Event)
        ≠ [sampleEvent3, sampleEvent2, sampleEvent] := by
  refine ⟨by decide, by decide, by decide⟩

/-- Closed witness for pagination: a two-event history queried with
`limit = 1, offset = 1` returns the second-newest match. -/
theorem query_paginates_newest_first_witness :
    NoBadDir (storeAfter testHash (fun _ => 1) 1000 "20250101_000000"
      [("20250101_000001", sampleEvent), ("20250101_000002", sampleEvent2)]).dir
    ∧ queryStore { limit := 1, offset := 1 }
        (storeAfter testHash (fun _ => 1) 1000 "20250101_000000"
          [("20250101_000001", sampleEvent), ("20250101_000002", sampleEvent2)]).dir
      = (((allEventsOf (storeAfter testHash (fun _ => 1) 1000 "20250101_000000"
          [("20250101_000001", sampleEvent), ("20250101_000002", sampleEvent2)]).dir).reverse.filter
            (matchesQuery { limit := 1, offset := 1 })).drop 1).take 1 :=
  ⟨by unfold NoBadDir NoBadLines; decide,
   (query_paginates_newest_first { limit := 1, offset := 1 } _
     (by unfold NoBadDir NoBadLines; decide)).1⟩

/-! ## Startup-recovery lemmas -/

theorem readBack_map_good (evs : List Event) :
    lastGoodHash.readBack (evs.map Line.good) = evs.head?.map Event.hash := by
  cases evs <;> rfl

/-- On a file of parseable lines, the backwards scan of `initialize`
recovers the hash of the last event of that file. -/
theorem lastGoodHash_allGood {l : List Line} (h : AllGoodLines l) :
    lastGoodHash l = ((eventsOfLines l).getLast?).map Event.hash := by
  rw [lastGoodHash]
  conv_lhs => rw [lines_eq_map_good h]
  rw [← List.map_reverse, readBack_map_good, List.head?_reverse]

/-- C7 (amended): `initialize` consults only plain `.jsonl` segments — the
glob never matches a `.gz` — so with no plain segment the state starts at
genesis even when compressed history exists; otherwise the newest plain
segment is scanned backwards for its last parseable line, `last_hash`
becomes the stored hash of that record (the last event of that one file,
not of the whole history) and `event_count` becomes the raw line count of
that file
(0 when no line parses). -/
theorem initStore_newest_plain_only (rawDir : List SegFile) (now : String) :
    ((rawDir.filter (fun f => !f.gz)).getLast? = none →
        (initStore rawDir now).lastHash = GENESIS_HASH
        ∧ (initStore rawDir now).eventCount = 0)
    ∧ (∀ f, (rawDir.filter (fun f => !f.gz)).getLast? = some f →
        AllGoodLines f.lines →
        (initStore rawDir now).lastHash =
          (((eventsOfLines f.lines).getLast?).map Event.hash).getD GENESIS_HASH
        ∧ (initStore rawDir now).eventCount =
            (if (eventsOfLines f.lines).isEmpty then 0 else f.lines.length)) := by
  constructor
  · intro h
    simp [initStore, h]
  · intro f hf hg
    simp only [initStore, hf]
    rw [lastGoodHash_allGood hg]
    cases hev : (eventsOfLines f.lines).getLast? with
    | none =>
      have : eventsOfLines f.lines = [] := by
        rwa [← List.getLast?_eq_none_iff]
      simp [this]
    | some e =>
      have : eventsOfLines f.lines ≠ [] := by
        intro hc
        rw [hc] at hev
        simp at hev
      simp [this, List.isEmpty_iff]

/-- C7 counterexample: a data directory whose only segment is compressed
holds one persisted event, yet `initialize` falls back to the genesis
state, so `last_hash` differs from the hash of the last durably written
event of the history and `event_count` is 0 — there is no fallback through
compressed segments. -/
theorem initStore_ignores_compressed :
    (initStore [⟨"20250101_000000", true,
        [.good (chainEvent testHash GENESIS_HASH sampleEvent)]⟩]
      "20250601_000000").lastHash = GENESIS_HASH
    ∧ (initStore [⟨"20250101_000000", true,
        [.good (chainEvent testHash GENESIS_HASH sampleEvent)]⟩]
      "20250601_000000").eventCount = 0
    ∧ (allEventsOf [⟨"20250101_000000", true,
        [.good (chainEvent testHash GENESIS_HASH sampleEvent)]⟩]).getLast?.map Event.hash
      = some (chainEvent testHash GENESIS_HASH sampleEvent).hash
    ∧ (chainEvent testHash GENESIS_HASH sampleEvent).hash ≠ GENESIS_HASH := by
  refine ⟨rfl, rfl, rfl, ?_⟩
  decide

/-- Closed witness for the startup-recovery theorem: a directory with one
plain one-event segment recovers the hash of that event and a count of 1. -/
theorem initStore_newest_plain_only_witness :
    (([(⟨"20250101_000000", false,
        [.good (chainEvent testHash GENESIS_HASH sampleEvent)]⟩ : SegFile)].filter
          (fun f => !f.gz)).getLast?
        = some ⟨"20250101_000000", false,
            [.good (chainEvent testHash GENESIS_HASH sampleEvent)]⟩)
    ∧ ((initStore [⟨"20250101_000000", false,
          [.good (chainEvent testHash GENESIS_HASH sampleEvent)]⟩]
          "20250601_000000").lastHash =
        (((eventsOfLines [.good (chainEvent testHash GENESIS_HASH sampleEvent)]).getLast?).map
          Event.hash).getD GENESIS_HASH
      ∧ (initStore [⟨"20250101_000000", false,
          [.good (chainEvent testHash GENESIS_HASH sampleEvent)]⟩]
          "20250601_000000").eventCount =
          (if (eventsOfLines [.good (chainEvent testHash GENESIS_HASH sampleEvent)]).isEmpty
            then 0
            else ([Line.good (chainEvent testHash GENESIS_HASH sampleEvent)] : List Line).length)) :=
  ⟨rfl,
   (initStore_newest_plain_only
      [⟨"20250101_000000", false,
        [.good (chainEvent testHash GENESIS_HASH sampleEvent)]⟩]
      "20250601_000000").2
     (⟨"20250101_000000", false,
       [.good (chainEvent testHash GENESIS_HASH sampleEvent)]⟩ : SegFile)
     rfl
     (by unfold AllGoodLines; decide)⟩

/-! ## Compression lemmas -/

/-- C8 (amended): the original segment is deleted only once the compressed
file is completely written — a missing plain file after the call implies a
whole `.gz` — and on any failing step the original survives whole; however,
a failed write can leave a partially written `.gz` on disk next to the
intact original. -/
theorem compress_failure_keeps_original (gzc : String → String)
    (failStep : Option Nat) (partialLen : Nat) (fs : TwoFiles)
    (content : String) (hp : fs.plain = some content) :
    ((compressFile gzc failStep partialLen fs).plain = none →
        (compressFile gzc failStep partialLen fs).gzf = some (gzc content))
    ∧ (∀ i, failStep = some i → i < 4 →
        (compressFile gzc failStep partialLen fs).plain = some content) := by
  obtain ⟨pl, gz0⟩ := fs
  simp only at hp
  subst hp
  constructor
  · intro hnone
    cases failStep with
    | none => simp [compressFile]
    | some i =>
      match i with
      | 0 => simp [compressFile] at hnone
      | 1 => simp [compressFile] at hnone
      | 2 => simp [compressFile] at hnone
      | 3 => simp [compressFile] at hnone
      | n + 4 =>
        have c0 : some (n + 4) ≠ some (0 : Nat) := fun h =>
          absurd (Option.some.inj h) (by omega)
        have c1 : some (n + 4) ≠ some (1 : Nat) := fun h =>
          absurd (Option.some.inj h) (by omega)
        have c2 : some (n + 4) ≠ some (2 : Nat) := fun h =>
          absurd (Option.some.inj h) (by omega)
        have c3 : some (n + 4) ≠ some (3 : Nat) := fun h =>
          absurd (Option.some.inj h) (by omega)
        simp [compressFile, c0, c1, c2, c3]
  · intro i hi hlt
    subst hi
    interval_cases i <;> simp [compressFile]

/-- C8 counterexample: a write failure (step 2, no bytes flushed) leaves
the intact original next to a created-but-incomplete `.gz` — an observable
on-disk state that is neither "plain file alone" nor "plain gone with the
`.gz` whole", refuting the no-partial-state dichotomy. -/
theorem compress_partial_gz_observable :
    compressFile (fun s => s) (some 2) 0 ⟨some "events", none⟩
      = ⟨some "events", some ""⟩
    ∧ ("" : String) ≠ "events" := by
  constructor <;> decide

/-- Closed witness for the compression theorem: a failing unlink (step 3)
leaves the original whole. -/
theorem compress_failure_keeps_original_witness :
    ((⟨some "events", none⟩ : TwoFiles).plain = some "events")
    ∧ (((compressFile (fun s => s) (some 3) 0 ⟨some "events", none⟩).plain = none →
          (compressFile (fun s => s) (some 3) 0 ⟨some "events", none⟩).gzf
            = some ((fun s => s) "events"))
      ∧ (∀ i, (some 3 : Option Nat) = some i → i < 4 →
          (compressFile (fun s => s) (some 3) 0 ⟨some "events", none⟩).plain
            = some "events")) :=
  ⟨rfl, compress_failure_keeps_original (fun s => s) (some 3) 0
    ⟨some "events", none⟩ "events" rfl⟩

/-! ## Status lemmas -/

theorem dropWhile_isBlank_allGood {l : List Line} (hg : AllGoodLines l) :
    l.dropWhile Line.isBlank = l := by
  cases l with
  | nil => rfl
  | cons x t =>
    have hx := hg x (List.mem_cons_self x t)
    cases x <;> simp_all [Line.isGood, Line.isBlank, List.dropWhile_cons]

theorem statusCountOf_allGood {f : SegFile} (hg : AllGoodLines f.lines)
    (hne : f.lines ≠ []) :
    statusCountOf f = (eventsOfLines f.lines).length := by
  have hlen : (eventsOfLines f.lines).length = f.lines.length := by
    conv_rhs => rw [lines_eq_map_good hg]
    simp
  have hgr : AllGoodLines f.lines.reverse := fun ln hln =>
    hg ln (List.mem_reverse.mp hln)
  cases hb : f.gz
  · simp only [statusCountOf, hb, Bool.false_eq_true, if_false, plainLineCount]
    rw [List.filter_eq_self.mpr, hlen]
    intro ln hln
    have := hg ln hln
    cases ln <;> simp_all [Line.isGood, Line.isBlank]
  · simp only [statusCountOf, hb, if_true, gzLineCount,
               dropWhile_isBlank_allGood hg, dropWhile_isBlank_allGood hgr,
               List.reverse_reverse]
    rw [if_neg, hlen]
    simpa using hne

theorem status_total_aux :
    ∀ (d : List SegFile), AllGoodDir d → (∀ f ∈ d, f.lines ≠ []) →
      (d.map statusCountOf).sum = (allEventsOf d).length
  | [], _, _ => rfl
  | f :: rest, hg, hne => by
    have h1 := statusCountOf_allGood (hg f (List.mem_cons_self f rest))
      (hne f (List.mem_cons_self f rest))
    have h2 := status_total_aux rest
      (fun g hgm => hg g (List.mem_cons_of_mem _ hgm))
      (fun g hgm => hne g (List.mem_cons_of_mem _ hgm))
    simp [allEventsOf_cons, h1, h2]

theorem status_first_aux (d : List SegFile) (hg : AllGoodDir d)
    (hne : ∀ f ∈ d, f.lines ≠ []) :
    (match d.head? with
      | some f => ((readFileForward f.lines).head?).map Event.timestamp
      | none => none)
      = (allEventsOf d).head?.map Event.timestamp := by
  cases d with
  | nil => rfl
  | cons f rest =>
    have hgf := hg f (List.mem_cons_self f rest)
    have hnef := hne f (List.mem_cons_self f rest)
    have hev : eventsOfLines f.lines ≠ [] := by
      intro hc
      apply hnef
      rw [lines_eq_map_good hgf, hc]
      rfl
    simp only [List.head?_cons, allEventsOf_cons, List.head?_append,
               readFileForward_eq_eventsOfLines (allGoodLines_noBad hgf)]
    cases hh : (eventsOfLines f.lines).head? with
    | none => exact absurd (List.head?_eq_none_iff.mp hh) hev
    | some e => simp [Option.or]

/-- C9 (amended): `get_status` rescans every segment, but the rescan counts
lines, not parsed events — a non-blank unparseable line counts as an event
and an empty compressed segment counts as one — and `first_event_time` is
the first event the reader can yield from the first file, which a leading
unparseable line hides.  Restricted to histories of non-empty segments made
of parseable lines, the count is the exact number of persisted events and
`first_event_time` is the timestamp of the first persisted event;
`last_event_time`, however, is always the current wall-clock time `now`,
not the timestamp of the last persisted event. -/
theorem getStatus_counts_and_times (statSize : SegFile → Nat) (now : String)
    (s : StoreState) (hg : AllGoodDir s.dir)
    (hne : ∀ f ∈ s.dir, f.lines ≠ []) :
    (getStatus statSize now s).total_events = (allEventsOf s.dir).length
    ∧ (getStatus statSize now s).first_event_time
        = (allEventsOf s.dir).head?.map Event.timestamp
    ∧ (getStatus statSize now s).last_event_time = some now :=
  ⟨status_total_aux s.dir hg hne, status_first_aux s.dir hg hne, rfl⟩

/-- The status counterexample state: a single plain segment whose first
line is unparseable, followed by one persisted event. -/
def statusBadLineStore : StoreState :=
  { closed := [], activeName := some "20250101_000000"
  , activeLines := some [.bad "not json", .good sampleEvent]
  , lastHash := GENESIS_HASH, eventCount := 0 }

/-- A second status counterexample state: the only segment is an empty
compressed file. -/
def statusEmptyGzStore : StoreState :=
  { closed := [⟨"20250101_000000", true, []⟩]
  , activeName := some "20250601_000000", activeLines := none
  , lastHash := GENESIS_HASH, eventCount := 0 }

/-- C9 counterexample: `get_status` misreports on claim-relevant histories.
`last_event_time` is the current wall clock, not the timestamp of the last
persisted event; a non-blank unparseable line is counted as an event
(total 2 where 1 event is persisted); a leading unparseable line hides
`first_event_time` entirely; and an empty compressed segment counts as one
event where none is persisted. -/
theorem getStatus_misreports :
    ((getStatus (fun _ => 0) "2025-09-14T00:00:00+00:00"
        (storeAfter testHash (fun _ => 1) 1000 "20250101_000000"
          [("20250101_000001", sampleEvent)])).last_event_time
      = some "2025-09-14T00:00:00+00:00"
    ∧ (allEventsOf (storeAfter testHash (fun _ => 1) 1000 "20250101_000000"
          [("20250101_000001", sampleEvent)]).dir).getLast?.map Event.timestamp
      = some "2025-01-01T00:00:00+00:00"
    ∧ ("2025-09-14T00:00:00+00:00" : String) ≠ "2025-01-01T00:00:00+00:00")
    ∧ ((getStatus (fun _ => 0) "2025-09-14T00:00:00+00:00"
          statusBadLineStore).total_events = 2
      ∧ (allEventsOf statusBadLineStore.dir).length = 1)
    ∧ ((getStatus (fun _ => 0) "2025-09-14T00:00:00+00:00"
          statusBadLineStore).first_event_time = none
      ∧ (allEventsOf statusBadLineStore.dir).head?.map Event.timestamp
        = some "2025-01-01T00:00:00+00:00")
    ∧ ((getStatus (fun _ => 0) "2025-09-14T00:00:00+00:00"
          statusEmptyGzStore).total_events = 1
      ∧ (allEventsOf statusEmptyGzStore.dir).length = 0) := by
  refine ⟨⟨rfl, by decide, by decide⟩, ⟨by decide, by decide⟩,
    ⟨rfl, by decide⟩, ⟨by decide, by decide⟩⟩

/-- Closed witness for the status theorem: a one-event history counted and
timestamped by `get_status` at a fixed clock value. -/
theorem getStatus_counts_and_times_witness :
    AllGoodDir (storeAfter testHash (fun _ => 1) 1000 "20250101_000000"
      [("20250101_000001", sampleEvent)]).dir
    ∧ ((getStatus (fun _ => 0) "2025-09-14T00:00:00+00:00"
          (storeAfter testHash (fun _ => 1) 1000 "20250101_000000"
            [("20250101_000001", sampleEvent)])).total_events
        = (allEventsOf (storeAfter testHash (fun _ => 1) 1000 "20250101_000000"
            [("20250101_000001", sampleEvent)]).dir).length
      ∧ (getStatus (fun _ => 0) "2025-09-14T00:00:00+00:00"
          (storeAfter testHash (fun _ => 1) 1000 "20250101_000000"
            [("20250101_000001", sampleEvent)])).first_event_time
        = (allEventsOf (storeAfter testHash (fun _ => 1) 1000 "20250101_000000"
            [("20250101_000001", sampleEvent)]).dir).head?.map Event.timestamp
      ∧ (getStatus (fun _ => 0) "2025-09-14T00:00:00+00:00"
          (storeAfter testHash (fun _ => 1) 1000 "20250101_000000"
            [("20250101_000001", sampleEvent)])).last_event_time
        = some "2025-09-14T00:00:00+00:00") :=
  ⟨by unfold AllGoodDir AllGoodLines; decide,
   getStatus_counts_and_times (fun _ => 0) "2025-09-14T00:00:00+00:00"
     (storeAfter testHash (fun _ => 1) 1000 "20250101_000000"
       [("20250101_000001", sampleEvent)])
     (by unfold AllGoodDir AllGoodLines; decide)
     (by decide)⟩
